import Mathlib

/-!
Verification of the Slack URL resolver (`src/slack-url-parser.ts`).

The resolver's input is the result of JavaScript's `new URL(url)`; we model
that result as a `URL` structure carrying the fields the resolver reads
(`hostname`, `pathname`, decoded `searchParams`), and model the `try/catch`
around `new URL` by an `Option URL` argument (`none` = the constructor threw).
The three path-shape regexes are embedded as deterministic matchers over
`List Char`; each regex here is backtracking-free because its character
classes exclude the delimiters (`/`, `-`, `.`) that follow them, so a
maximal-run scan is equivalent to the regex engine's search.
-/

namespace SlackMcp

/-- Model of the fields of a parsed WHATWG `URL` object that the resolver
reads: `hostname`, `pathname`, and the decoded query parameters in order. -/
structure URL where
  hostname : String
  pathname : String
  searchParams : List (String × String)
deriving DecidableEq, Repr

/-- `searchParams.get(k)`: first value for key `k`, or `null` (`none`). -/
def URL.getParam (u : URL) (k : String) : Option String :=
  (u.searchParams.find? (fun p => p.1 = k)).map (fun p => p.2)

/-- The `SlackUrlInfo` interface of `slack-url-parser.ts`: optional
`workspace`, required `channelId` and `messageTs`, optional `threadTs`. -/
structure SlackUrlInfo where
  workspace : Option String
  channelId : String
  messageTs : String
  threadTs : Option String
deriving DecidableEq, Repr

/-- The character class `[A-Z0-9]` under the regex `i` flag: ASCII letters
of either case and digits. -/
def isAlnumChar (c : Char) : Bool :=
  (('A' ≤ c && c ≤ 'Z') || ('a' ≤ c && c ≤ 'z') || ('0' ≤ c && c ≤ '9'))

/-- The regex class `\d`: ASCII digits. -/
def isDigitChar (c : Char) : Bool :=
  ('0' ≤ c && c ≤ '9')

/-- Match a literal regex fragment case-insensitively (the `i` flag) at the
head of the input, returning the rest of the input on success. -/
def stripCaseless : List Char → List Char → Option (List Char)
  | [], xs => some xs
  | _ :: _, [] => none
  | p :: ps, x :: xs =>
    if p.toLower = x.toLower then stripCaseless ps xs else none

/-- The regex `/^\/archives\/([A-Z0-9]+)\/p(\d+)$/i` of `parseSlackUrl`
(format 1).  Returns the two capture groups (channel ID, digit run). -/
def matchArchiveMsg (path : List Char) : Option (List Char × List Char) :=
  match stripCaseless "/archives/".data path with
  | none => none
  | some rest =>
    let cid := rest.takeWhile isAlnumChar
    let rest2 := rest.dropWhile isAlnumChar
    if cid.isEmpty then none else
    match rest2 with
    | '/' :: c :: rest3 =>
      if c.toLower = 'p' then
        let ds := rest3.takeWhile isDigitChar
        let rest4 := rest3.dropWhile isDigitChar
        if ds.isEmpty then none
        else if rest4.isEmpty then some (cid, ds) else none
      else none
    | _ => none

/-- The regex `/^\/client\/[A-Z0-9]+\/([A-Z0-9]+)\/thread\/[A-Z0-9]+-(\d+\.\d+)$/i`
of `parseSlackUrl` (format 2).  Returns the capture groups
(channel ID, `seconds.micros` timestamp). -/
def matchClientThread (path : List Char) : Option (List Char × List Char) :=
  match stripCaseless "/client/".data path with
  | none => none
  | some rest =>
    let team := rest.takeWhile isAlnumChar
    let rest2 := rest.dropWhile isAlnumChar
    if team.isEmpty then none else
    match rest2 with
    | '/' :: rest3 =>
      let cid := rest3.takeWhile isAlnumChar
      let rest4 := rest3.dropWhile isAlnumChar
      if cid.isEmpty then none else
      match stripCaseless "/thread/".data rest4 with
      | none => none
      | some rest5 =>
        let owner := rest5.takeWhile isAlnumChar
        let rest6 := rest5.dropWhile isAlnumChar
        if owner.isEmpty then none else
        match rest6 with
        | '-' :: rest7 =>
          let d1 := rest7.takeWhile isDigitChar
          let rest8 := rest7.dropWhile isDigitChar
          if d1.isEmpty then none else
          match rest8 with
          | '.' :: rest9 =>
            let d2 := rest9.takeWhile isDigitChar
            let rest10 := rest9.dropWhile isDigitChar
            if d2.isEmpty then none
            else if rest10.isEmpty then some (cid, d1 ++ '.' :: d2) else none
          | _ => none
        | _ => none
    | _ => none

/-- The regex `/^\/archives\/([A-Z0-9]+)\/?$/i` of `parseSlackUrl`
(format 3).  Returns the captured channel ID. -/
def matchBareChannel (path : List Char) : Option (List Char) :=
  match stripCaseless "/archives/".data path with
  | none => none
  | some rest =>
    let cid := rest.takeWhile isAlnumChar
    let rest2 := rest.dropWhile isAlnumChar
    if cid.isEmpty then none else
    match rest2 with
    | [] => some cid
    | ['/'] => some cid
    | _ => none

/-- `parseSlackTimestamp` of `slack-url-parser.ts`: strip a leading `p`,
split a 16-character run as `seconds.microseconds`, pass everything else
through (the `includes(".")` branch and the fall-through both return `ts`). -/
def parseSlackTimestamp (urlTs : String) : String :=
  let ts := if urlTs.data.head? = some 'p' then urlTs.data.tail else urlTs.data
  if ts.length = 16 then String.mk (ts.take 10 ++ '.' :: ts.drop 10)
  else if ts.contains '.' then String.mk ts
  else String.mk ts

/-- JavaScript `hostname.split(".")` (every occurrence of `.` splits;
`"".split(".")` is `[""]`), over the character list of the hostname. -/
def splitOnDot : List Char → List (List Char)
  | [] => [[]]
  | c :: rest =>
    let r := splitOnDot rest
    if c = '.' then [] :: r
    else (c :: r.headD []) :: r.tail

/-- `parseSlackUrl` of `slack-url-parser.ts`, on an already-constructed
`URL` value: workspace from the first hostname label (absent when it is
`app`), then the three path shapes tried in order. -/
def parseSlackUrl (parsed : URL) : Option SlackUrlInfo :=
  let hostParts := splitOnDot parsed.hostname.data
  let workspace : Option String :=
    if hostParts.headD [] ≠ "app".data then some (String.mk (hostParts.headD []))
    else none
  let pathname := parsed.pathname
  match matchArchiveMsg pathname.data with
  | some (cid, ds) =>
    let channelId := String.mk cid
    let messageTs := parseSlackTimestamp (String.mk ds)
    let threadTs := parsed.getParam "thread_ts"
    some { workspace := workspace, channelId := channelId, messageTs := messageTs,
           threadTs := some (match threadTs with
                             | some t => if t ≠ "" then t else messageTs
                             | none => messageTs) }
  | none =>
  match matchClientThread pathname.data with
  | some (cid, ts) =>
    some { workspace := workspace, channelId := String.mk cid,
           messageTs := String.mk ts, threadTs := some (String.mk ts) }
  | none =>
  match matchBareChannel pathname.data with
  | some cid =>
    some { workspace := workspace, channelId := String.mk cid,
           messageTs := "", threadTs := none }
  | none => none

/-- `isSlackUrl` of `slack-url-parser.ts` on a constructed `URL`:
`hostname.endsWith(".slack.com") || hostname === "slack.com"`. -/
def isSlackUrl (parsed : URL) : Bool :=
  ".slack.com".data.isSuffixOf parsed.hostname.data || parsed.hostname = "slack.com"

/-- The whole of `parseSlackUrl` including its `try/catch`: `none` stands
for the string on which `new URL` threw, and that branch returns `null`. -/
def parseSlackUrlFromParse (r : Option URL) : Option SlackUrlInfo :=
  match r with
  | none => none
  | some parsed => parseSlackUrl parsed

/-- The whole of `isSlackUrl` including its `try/catch`: a string on which
`new URL` threw yields `false`. -/
def isSlackUrlFromParse (r : Option URL) : Bool :=
  match r with
  | none => false
  | some parsed => isSlackUrl parsed

/-- The spec's canonical timestamp format: exactly 10 digits, `.`, 6 digits
(stated from the spec's words, for comparison with the code's output). -/
def isCanonicalTs (s : String) : Bool :=
  let l := s.data
  decide (l.length = 17) && (l.take 10).all isDigitChar &&
  (match l.drop 10 with
   | '.' :: rest => rest.all isDigitChar
   | _ => false)

/-! Helper lemmas about strings, case-insensitive literals, and runs. -/

theorem data_append (s t : String) : (s ++ t).data = s.data ++ t.data := rfl

theorem mk_data (s : String) : String.mk s.data = s := by
  cases s
  rfl

theorem mk_eq_empty {l : List Char} : String.mk l = "" ↔ l = [] := by
  constructor
  · intro h
    exact congrArg String.data h
  · intro h
    rw [h]

theorem stripCaseless_toLower (ps : List Char) :
    ∀ qs xs, ps.map Char.toLower = qs.map Char.toLower →
      stripCaseless ps (qs ++ xs) = some xs := by
  induction ps with
  | nil =>
    intro qs xs h
    cases qs with
    | nil => rfl
    | cons q qs => simp at h
  | cons p ps ih =>
    intro qs xs h
    cases qs with
    | nil => simp at h
    | cons q qs =>
      simp only [List.map_cons, List.cons.injEq] at h
      simp [stripCaseless, h.1, ih qs xs h.2]

theorem stripCaseless_self (ps xs : List Char) :
    stripCaseless ps (ps ++ xs) = some xs :=
  stripCaseless_toLower ps ps xs rfl

theorem stripCaseless_cons (p x : Char) (ps xs : List Char)
    (h : p.toLower = x.toLower) :
    stripCaseless (p :: ps) (x :: xs) = stripCaseless ps xs := by
  simp [stripCaseless, h]

theorem stripCaseless_ne (p x : Char) (ps xs : List Char)
    (h : ¬ p.toLower = x.toLower) :
    stripCaseless (p :: ps) (x :: xs) = none := by
  simp [stripCaseless, h]

theorem takeWhile_run (p : Char → Bool) (xs : List Char) (d : Char) (ys : List Char)
    (hall : ∀ a ∈ xs, p a = true) (hd : p d = false) :
    (xs ++ d :: ys).takeWhile p = xs ∧ (xs ++ d :: ys).dropWhile p = d :: ys := by
  constructor
  · rw [List.takeWhile_append_of_pos hall]
    simp [List.takeWhile_cons, hd]
  · rw [List.dropWhile_append_of_pos hall]
    simp [List.dropWhile_cons, hd]

/-! Positive matcher lemmas: each regex accepts its declared shape. -/

theorem matchArchiveMsg_pos (id ds : List Char)
    (hid : id ≠ []) (hid2 : ∀ c ∈ id, isAlnumChar c = true)
    (hds : ds ≠ []) (hds2 : ∀ c ∈ ds, isDigitChar c = true) :
    matchArchiveMsg ("/archives/".data ++ (id ++ '/' :: 'p' :: ds)) = some (id, ds) := by
  have h1 := takeWhile_run isAlnumChar id '/' ('p' :: ds) hid2 (by decide)
  have h2 : ds.takeWhile isDigitChar = ds := List.takeWhile_eq_self_iff.mpr hds2
  have h3 : ds.dropWhile isDigitChar = [] := List.dropWhile_eq_nil_iff.mpr hds2
  simp +decide [matchArchiveMsg, stripCaseless, h1.1, h1.2, h2, h3,
    List.isEmpty_eq_false.mpr hid, List.isEmpty_eq_false.mpr hds]

theorem matchBareChannel_pos (id : List Char)
    (hid : id ≠ []) (hid2 : ∀ c ∈ id, isAlnumChar c = true) :
    matchBareChannel ("/archives/".data ++ id) = some id ∧
    matchBareChannel ("/archives/".data ++ (id ++ ['/'])) = some id := by
  have h1 := takeWhile_run isAlnumChar id '/' [] hid2 (by decide)
  have h2 : id.takeWhile isAlnumChar = id := List.takeWhile_eq_self_iff.mpr hid2
  have h3 : id.dropWhile isAlnumChar = [] := List.dropWhile_eq_nil_iff.mpr hid2
  constructor
  · simp +decide [matchBareChannel, stripCaseless, h2, h3,
      List.isEmpty_eq_false.mpr hid]
  · simp +decide [matchBareChannel, stripCaseless, h1.1, h1.2,
      List.isEmpty_eq_false.mpr hid]

theorem matchClientThread_pos (team cid owner d1 d2 : List Char)
    (hteam : team ≠ []) (hteam2 : ∀ c ∈ team, isAlnumChar c = true)
    (hcid : cid ≠ []) (hcid2 : ∀ c ∈ cid, isAlnumChar c = true)
    (howner : owner ≠ []) (howner2 : ∀ c ∈ owner, isAlnumChar c = true)
    (hd1 : d1 ≠ []) (hd12 : ∀ c ∈ d1, isDigitChar c = true)
    (hd2 : d2 ≠ []) (hd22 : ∀ c ∈ d2, isDigitChar c = true) :
    matchClientThread ("/client/".data ++ (team ++ '/' ::
        (cid ++ '/' :: 't' :: 'h' :: 'r' :: 'e' :: 'a' :: 'd' :: '/' ::
          (owner ++ '-' :: (d1 ++ '.' :: d2))))) = some (cid, d1 ++ '.' :: d2) := by
  have ht := takeWhile_run isAlnumChar team '/'
    (cid ++ '/' :: 't' :: 'h' :: 'r' :: 'e' :: 'a' :: 'd' :: '/' ::
      (owner ++ '-' :: (d1 ++ '.' :: d2))) hteam2 (by decide)
  have hc := takeWhile_run isAlnumChar cid '/'
    ('t' :: 'h' :: 'r' :: 'e' :: 'a' :: 'd' :: '/' :: (owner ++ '-' :: (d1 ++ '.' :: d2)))
    hcid2 (by decide)
  have ho := takeWhile_run isAlnumChar owner '-' (d1 ++ '.' :: d2) howner2 (by decide)
  have h1 := takeWhile_run isDigitChar d1 '.' d2 hd12 (by decide)
  have h2a : d2.takeWhile isDigitChar = d2 := List.takeWhile_eq_self_iff.mpr hd22
  have h2b : d2.dropWhile isDigitChar = [] := List.dropWhile_eq_nil_iff.mpr hd22
  simp +decide [matchClientThread, stripCaseless, ht.1, ht.2, hc.1, hc.2,
    ho.1, ho.2, h1.1, h1.2, h2a, h2b, List.isEmpty_eq_false.mpr hteam,
    List.isEmpty_eq_false.mpr hcid, List.isEmpty_eq_false.mpr howner,
    List.isEmpty_eq_false.mpr hd1, List.isEmpty_eq_false.mpr hd2]

/-! Negative matcher lemmas: each regex rejects the other shapes. -/

theorem matchArchiveMsg_client (s : List Char) :
    matchArchiveMsg ("/client/".data ++ s) = none := by
  simp +decide [matchArchiveMsg, stripCaseless]

theorem matchClientThread_arch (s : List Char) :
    matchClientThread ("/archives/".data ++ s) = none := by
  simp +decide [matchClientThread, stripCaseless]

theorem matchArchiveMsg_bare (id : List Char)
    (hid2 : ∀ c ∈ id, isAlnumChar c = true) :
    matchArchiveMsg ("/archives/".data ++ id) = none ∧
    matchArchiveMsg ("/archives/".data ++ (id ++ ['/'])) = none := by
  have h1 := takeWhile_run isAlnumChar id '/' [] hid2 (by decide)
  have h2 : id.takeWhile isAlnumChar = id := List.takeWhile_eq_self_iff.mpr hid2
  have h3 : id.dropWhile isAlnumChar = [] := List.dropWhile_eq_nil_iff.mpr hid2
  constructor
  · simp +decide [matchArchiveMsg, stripCaseless, h2, h3]
  · simp +decide [matchArchiveMsg, stripCaseless, h1.1, h1.2]

/-! `parseSlackTimestamp` on a plain digit run. -/

theorem parseSlackTimestamp_digits (ds : List Char) (hne : ds ≠ [])
    (hds : ∀ c ∈ ds, isDigitChar c = true) :
    parseSlackTimestamp (String.mk ds) =
      (if ds.length = 16 then String.mk (ds.take 10 ++ '.' :: ds.drop 10)
       else String.mk ds) := by
  cases ds with
  | nil => exact absurd rfl hne
  | cons c t =>
    have hc : isDigitChar c = true := hds c (by simp)
    have hcp : ¬ c = 'p' := by
      rintro rfl
      simp [isDigitChar] at hc
    unfold parseSlackTimestamp
    by_cases h16 : (c :: t).length = 16
    · simp [hcp, h16]
    · simp [hcp, h16, ite_self]

theorem parseSlackTimestamp_digits_ne_empty (ds : List Char) (hne : ds ≠ [])
    (hds : ∀ c ∈ ds, isDigitChar c = true) :
    parseSlackTimestamp (String.mk ds) ≠ "" := by
  rw [parseSlackTimestamp_digits ds hne hds]
  split
  · rw [Ne, mk_eq_empty]
    simp
  · rw [Ne, mk_eq_empty]
    exact hne

theorem parseSlackTimestamp_digits_not_compact (ds : List Char) (hne : ds ≠ [])
    (hds : ∀ c ∈ ds, isDigitChar c = true) :
    ¬ ((parseSlackTimestamp (String.mk ds)).data.length = 16 ∧
       ∀ c ∈ (parseSlackTimestamp (String.mk ds)).data, isDigitChar c = true) := by
  rw [parseSlackTimestamp_digits ds hne hds]
  rintro ⟨hlen, hall⟩
  by_cases h16 : ds.length = 16
  · rw [if_pos h16] at hall
    have hdot : '.' ∈ (String.mk (ds.take 10 ++ '.' :: ds.drop 10)).data := by
      simp
    have := hall '.' hdot
    simp [isDigitChar] at this
  · rw [if_neg h16] at hlen
    exact h16 hlen

/-! Evaluating `parseSlackUrl` once a matcher has fired or all have failed. -/

theorem parseSlackUrl_archive (u : URL) (cid ds : List Char)
    (hm : matchArchiveMsg u.pathname.data = some (cid, ds)) :
    parseSlackUrl u = some
      { workspace := (if (splitOnDot u.hostname.data).headD [] ≠ "app".data
          then some (String.mk ((splitOnDot u.hostname.data).headD [])) else none),
        channelId := String.mk cid,
        messageTs := parseSlackTimestamp (String.mk ds),
        threadTs := some (match u.getParam "thread_ts" with
          | some t => if t ≠ "" then t else parseSlackTimestamp (String.mk ds)
          | none => parseSlackTimestamp (String.mk ds)) } := by
  simp only [parseSlackUrl, hm]

theorem parseSlackUrl_client (u : URL) (cid ts : List Char)
    (h1 : matchArchiveMsg u.pathname.data = none)
    (hm : matchClientThread u.pathname.data = some (cid, ts)) :
    parseSlackUrl u = some
      { workspace := (if (splitOnDot u.hostname.data).headD [] ≠ "app".data
          then some (String.mk ((splitOnDot u.hostname.data).headD [])) else none),
        channelId := String.mk cid,
        messageTs := String.mk ts,
        threadTs := some (String.mk ts) } := by
  simp only [parseSlackUrl, h1, hm]

theorem parseSlackUrl_bare (u : URL) (cid : List Char)
    (h1 : matchArchiveMsg u.pathname.data = none)
    (h2 : matchClientThread u.pathname.data = none)
    (hm : matchBareChannel u.pathname.data = some cid) :
    parseSlackUrl u = some
      { workspace := (if (splitOnDot u.hostname.data).headD [] ≠ "app".data
          then some (String.mk ((splitOnDot u.hostname.data).headD [])) else none),
        channelId := String.mk cid,
        messageTs := "",
        threadTs := none } := by
  simp only [parseSlackUrl, h1, h2, hm]

/-! Inversion lemmas: what a successful match tells us about its output. -/

theorem matchArchiveMsg_inv (path cid ds : List Char)
    (h : matchArchiveMsg path = some (cid, ds)) :
    ds ≠ [] ∧ ∀ c ∈ ds, isDigitChar c = true := by
  unfold matchArchiveMsg at h
  split at h
  · exact absurd h (by simp)
  · dsimp only at h
    split at h
    · exact absurd h (by simp)
    · split at h
      · split at h
        · split at h
          · exact absurd h (by simp)
          · split at h
            · rename_i x rest heq1 hcidne rest2 c rest3 heq2 hp hdsne hrest4
              injection h with h2
              injection h2 with h3 h4
              refine ⟨?_, ?_⟩
              · rw [← h4]
                intro hnil
                rw [hnil] at hdsne
                exact hdsne rfl
              · rw [← h4]
                intro a ha
                exact List.mem_takeWhile_imp ha
            · exact absurd h (by simp)
        · exact absurd h (by simp)
      · exact absurd h (by simp)

theorem matchClientThread_inv (path cid ts : List Char)
    (h : matchClientThread path = some (cid, ts)) :
    '.' ∈ ts := by
  unfold matchClientThread at h
  repeat' first
    | split at h
    | dsimp only at h
  all_goals try exact Option.noConfusion h
  injection h with h2
  injection h2 with h3 h4
  rw [← h4]
  simp

theorem parseSlackUrl_none (u : URL)
    (h1 : matchArchiveMsg u.pathname.data = none)
    (h2 : matchClientThread u.pathname.data = none)
    (h3 : matchBareChannel u.pathname.data = none) :
    parseSlackUrl u = none := by
  simp only [parseSlackUrl, h1, h2, h3]

theorem parseSlackUrl_inv (u : URL) (info : SlackUrlInfo)
    (h : parseSlackUrl u = some info) :
    info.workspace = (if (splitOnDot u.hostname.data).headD [] ≠ "app".data
        then some (String.mk ((splitOnDot u.hostname.data).headD [])) else none) ∧
    ((∃ cid ds, matchArchiveMsg u.pathname.data = some (cid, ds) ∧
        info.channelId = String.mk cid ∧
        info.messageTs = parseSlackTimestamp (String.mk ds) ∧
        info.threadTs = some (match u.getParam "thread_ts" with
          | some t => if t ≠ "" then t else info.messageTs
          | none => info.messageTs)) ∨
     (∃ cid ts, matchClientThread u.pathname.data = some (cid, ts) ∧
        info.channelId = String.mk cid ∧ info.messageTs = String.mk ts ∧
        info.threadTs = some (String.mk ts)) ∨
     (∃ cid, matchBareChannel u.pathname.data = some cid ∧
        info.channelId = String.mk cid ∧ info.messageTs = "" ∧ info.threadTs = none)) := by
  cases h1 : matchArchiveMsg u.pathname.data with
  | some p =>
    obtain ⟨cid, ds⟩ := p
    rw [parseSlackUrl_archive u cid ds h1] at h
    injection h with h2
    subst h2
    exact ⟨rfl, Or.inl ⟨cid, ds, rfl, rfl, rfl, rfl⟩⟩
  | none =>
    cases h2 : matchClientThread u.pathname.data with
    | some p =>
      obtain ⟨cid, ts⟩ := p
      rw [parseSlackUrl_client u cid ts h1 h2] at h
      injection h with h3
      subst h3
      exact ⟨rfl, Or.inr (Or.inl ⟨cid, ts, rfl, rfl, rfl, rfl⟩)⟩
    | none =>
      cases h3 : matchBareChannel u.pathname.data with
      | some cid =>
        rw [parseSlackUrl_bare u cid h1 h2 h3] at h
        injection h with h4
        subst h4
        exact ⟨rfl, Or.inr (Or.inr ⟨cid, rfl, rfl, rfl, rfl⟩)⟩
      | none =>
        rw [parseSlackUrl_none u h1 h2 h3] at h
        exact Option.noConfusion h

theorem data_eq_nil {s : String} (h : s.data = []) : s = "" := by
  rw [← mk_data s, mk_eq_empty]
  exact h

theorem data_ne_nil {s : String} (h : s ≠ "") : s.data ≠ [] :=
  fun hn => h (data_eq_nil hn)

theorem mk_eq_of_data {l : List Char} {s : String} (h : l = s.data) :
    String.mk l = s := by
  rw [h, mk_data]

theorem matchArchiveMsg_pos_ci (kw : List Char) (pc : Char) (id ds : List Char)
    (hkw : kw.map Char.toLower = "/archives/".data.map Char.toLower)
    (hpc : pc.toLower = 'p')
    (hid : id ≠ []) (hid2 : ∀ c ∈ id, isAlnumChar c = true)
    (hds : ds ≠ []) (hds2 : ∀ c ∈ ds, isDigitChar c = true) :
    matchArchiveMsg (kw ++ (id ++ '/' :: pc :: ds)) = some (id, ds) := by
  have hstrip : stripCaseless "/archives/".data (kw ++ (id ++ '/' :: pc :: ds))
      = some (id ++ '/' :: pc :: ds) :=
    stripCaseless_toLower _ _ _ hkw.symm
  have h1 := takeWhile_run isAlnumChar id '/' (pc :: ds) hid2 (by decide)
  have h2 : ds.takeWhile isDigitChar = ds := List.takeWhile_eq_self_iff.mpr hds2
  have h3 : ds.dropWhile isDigitChar = [] := List.dropWhile_eq_nil_iff.mpr hds2
  simp [matchArchiveMsg, hstrip, h1.1, h1.2, h2, h3, hpc,
    List.isEmpty_eq_false.mpr hid, List.isEmpty_eq_false.mpr hds]

theorem stripCaseless_wrap (ps aw xs : List Char)
    (h : ps.map Char.toLower = ('/' :: aw ++ ['/']).map Char.toLower) :
    stripCaseless ps ('/' :: (aw ++ '/' :: xs)) = some xs := by
  have he : '/' :: (aw ++ '/' :: xs) = ('/' :: aw ++ ['/']) ++ xs := by simp
  rw [he]
  exact stripCaseless_toLower ps ('/' :: aw ++ ['/']) xs h

theorem map_toLower_cons {aw : List Char} {c : Char} {t : List Char}
    (h : aw.map Char.toLower = (c :: t).map Char.toLower) :
    ∃ a0 t0, aw = a0 :: t0 ∧ a0.toLower = c.toLower ∧
      t0.map Char.toLower = t.map Char.toLower := by
  cases aw with
  | nil => simp at h
  | cons a0 t0 =>
    simp only [List.map_cons, List.cons.injEq] at h
    exact ⟨a0, t0, rfl, h.1, h.2⟩

theorem matchArchiveMsg_head_ne (x : Char) (rest : List Char)
    (hx : ¬ x.toLower = 'a') :
    matchArchiveMsg ('/' :: x :: rest) = none := by
  have h : stripCaseless "/archives/".data ('/' :: x :: rest) = none := by
    rw [show "/archives/".data = '/' :: 'a' :: "rchives/".data from rfl]
    rw [stripCaseless_cons '/' '/' _ _ rfl]
    exact stripCaseless_ne 'a' x _ _ (fun hh => hx (hh.symm.trans (by decide)))
  simp [matchArchiveMsg, h]

theorem matchClientThread_head_ne (x : Char) (rest : List Char)
    (hx : ¬ x.toLower = 'c') :
    matchClientThread ('/' :: x :: rest) = none := by
  have h : stripCaseless "/client/".data ('/' :: x :: rest) = none := by
    rw [show "/client/".data = '/' :: 'c' :: "lient/".data from rfl]
    rw [stripCaseless_cons '/' '/' _ _ rfl]
    exact stripCaseless_ne 'c' x _ _ (fun hh => hx (hh.symm.trans (by decide)))
  simp [matchClientThread, h]

theorem matchClientThread_pos_ci (cl th team cid owner d1 d2 : List Char)
    (hcl : cl.map Char.toLower = "client".data.map Char.toLower)
    (hth : th.map Char.toLower = "thread".data.map Char.toLower)
    (hteam : team ≠ []) (hteam2 : ∀ c ∈ team, isAlnumChar c = true)
    (hcid : cid ≠ []) (hcid2 : ∀ c ∈ cid, isAlnumChar c = true)
    (howner : owner ≠ []) (howner2 : ∀ c ∈ owner, isAlnumChar c = true)
    (hd1 : d1 ≠ []) (hd12 : ∀ c ∈ d1, isDigitChar c = true)
    (hd2 : d2 ≠ []) (hd22 : ∀ c ∈ d2, isDigitChar c = true) :
    matchClientThread ('/' :: (cl ++ '/' :: (team ++ '/' :: (cid ++ '/' ::
        (th ++ '/' :: (owner ++ '-' :: (d1 ++ '.' :: d2))))))) =
      some (cid, d1 ++ '.' :: d2) := by
  have hstrip1 : stripCaseless "/client/".data ('/' :: (cl ++ '/' ::
      (team ++ '/' :: (cid ++ '/' :: (th ++ '/' ::
        (owner ++ '-' :: (d1 ++ '.' :: d2))))))) =
      some (team ++ '/' :: (cid ++ '/' :: (th ++ '/' ::
        (owner ++ '-' :: (d1 ++ '.' :: d2))))) := by
    apply stripCaseless_wrap
    rw [show "/client/".data = '/' :: "client".data ++ ['/'] from rfl]
    simp [List.map_append, hcl]
  have hstrip2 : stripCaseless "/thread/".data ('/' ::
      (th ++ '/' :: (owner ++ '-' :: (d1 ++ '.' :: d2)))) =
      some (owner ++ '-' :: (d1 ++ '.' :: d2)) := by
    apply stripCaseless_wrap
    rw [show "/thread/".data = '/' :: "thread".data ++ ['/'] from rfl]
    simp [List.map_append, hth]
  have ht := takeWhile_run isAlnumChar team '/'
    (cid ++ '/' :: (th ++ '/' :: (owner ++ '-' :: (d1 ++ '.' :: d2))))
    hteam2 (by decide)
  have hc := takeWhile_run isAlnumChar cid '/'
    (th ++ '/' :: (owner ++ '-' :: (d1 ++ '.' :: d2))) hcid2 (by decide)
  have ho := takeWhile_run isAlnumChar owner '-' (d1 ++ '.' :: d2) howner2 (by decide)
  have h1 := takeWhile_run isDigitChar d1 '.' d2 hd12 (by decide)
  have h2a : d2.takeWhile isDigitChar = d2 := List.takeWhile_eq_self_iff.mpr hd22
  have h2b : d2.dropWhile isDigitChar = [] := List.dropWhile_eq_nil_iff.mpr hd22
  simp [matchClientThread, hstrip1, hstrip2, ht.1, ht.2, hc.1, hc.2,
    ho.1, ho.2, h1.1, h1.2, h2a, h2b, List.isEmpty_eq_false.mpr hteam,
    List.isEmpty_eq_false.mpr hcid, List.isEmpty_eq_false.mpr howner,
    List.isEmpty_eq_false.mpr hd1, List.isEmpty_eq_false.mpr hd2]

theorem matchArchiveMsg_bare_ci (aw id : List Char)
    (hkw : "/archives/".data.map Char.toLower = ('/' :: aw ++ ['/']).map Char.toLower)
    (hid2 : ∀ c ∈ id, isAlnumChar c = true) :
    matchArchiveMsg ('/' :: (aw ++ '/' :: id)) = none := by
  have hstrip := stripCaseless_wrap "/archives/".data aw id hkw
  have h2 : id.takeWhile isAlnumChar = id := List.takeWhile_eq_self_iff.mpr hid2
  have h3 : id.dropWhile isAlnumChar = [] := List.dropWhile_eq_nil_iff.mpr hid2
  simp [matchArchiveMsg, hstrip, h2, h3]

theorem matchBareChannel_pos_ci (aw id : List Char)
    (hkw : "/archives/".data.map Char.toLower = ('/' :: aw ++ ['/']).map Char.toLower)
    (hid : id ≠ []) (hid2 : ∀ c ∈ id, isAlnumChar c = true) :
    matchBareChannel ('/' :: (aw ++ '/' :: id)) = some id := by
  have hstrip := stripCaseless_wrap "/archives/".data aw id hkw
  have h2 : id.takeWhile isAlnumChar = id := List.takeWhile_eq_self_iff.mpr hid2
  have h3 : id.dropWhile isAlnumChar = [] := List.dropWhile_eq_nil_iff.mpr hid2
  simp [matchBareChannel, hstrip, h2, h3, List.isEmpty_eq_false.mpr hid]

theorem archive_result (u : URL) (id ds : String)
    (hm : matchArchiveMsg u.pathname.data = some (id.data, ds.data))
    (hds : ds ≠ "") (hds2 : ∀ c ∈ ds.data, isDigitChar c = true) :
    ∃ info, parseSlackUrl u = some info ∧
      info.channelId = id ∧
      info.messageTs = (if ds.data.length = 16
        then String.mk (ds.data.take 10 ++ '.' :: ds.data.drop 10) else ds) ∧
      info.threadTs = some (match u.getParam "thread_ts" with
        | some t => if t ≠ "" then t else info.messageTs
        | none => info.messageTs) := by
  refine ⟨_, parseSlackUrl_archive u id.data ds.data hm, ?_, ?_, ?_⟩
  · exact mk_data id
  · dsimp only
    rw [parseSlackTimestamp_digits ds.data (data_ne_nil hds) hds2, mk_data]
  · rfl

/-! The claim theorems. -/

/-- C1: for every URL whose path has the archive-message form
`/archives/<ID>/p<digits>`, `parseSlackUrl` returns `channelId = <ID>`,
`messageTs` = the digit run normalized (a 16-digit run becomes
`<first 10>.<last 6>`, anything else passes through), and `threadTs` = the
`thread_ts` query parameter verbatim when present and non-empty, otherwise
`threadTs = messageTs`. -/
theorem C1_archive_message_form (u : URL) (id ds : String)
    (hpath : u.pathname = "/archives/" ++ id ++ "/p" ++ ds)
    (hid : id ≠ "") (hid2 : ∀ c ∈ id.data, isAlnumChar c = true)
    (hds : ds ≠ "") (hds2 : ∀ c ∈ ds.data, isDigitChar c = true) :
    ∃ info, parseSlackUrl u = some info ∧
      info.channelId = id ∧
      info.messageTs = (if ds.data.length = 16
        then String.mk (ds.data.take 10 ++ '.' :: ds.data.drop 10) else ds) ∧
      info.threadTs = some (match u.getParam "thread_ts" with
        | some t => if t ≠ "" then t else info.messageTs
        | none => info.messageTs) := by
  have hdata : u.pathname.data =
      "/archives/".data ++ (id.data ++ '/' :: 'p' :: ds.data) := by
    rw [hpath]
    simp [data_append, List.append_assoc, show "/p".data = ['/', 'p'] from rfl]
  have hm : matchArchiveMsg u.pathname.data = some (id.data, ds.data) := by
    rw [hdata]
    exact matchArchiveMsg_pos id.data ds.data (data_ne_nil hid) hid2
      (data_ne_nil hds) hds2
  exact archive_result u id ds hm hds hds2

/-- C1 witness: the archive example evaluated at a concrete URL. -/
theorem C1_archive_message_form_witness :
    ∃ info, parseSlackUrl ⟨"acme.slack.com", "/archives/C123/p1609459200123456", []⟩
        = some info ∧
      info.channelId = "C123" ∧
      info.messageTs = (if ("1609459200123456" : String).data.length = 16
        then String.mk (("1609459200123456" : String).data.take 10 ++
          '.' :: ("1609459200123456" : String).data.drop 10)
        else "1609459200123456") ∧
      info.threadTs = some (match
          (URL.mk "acme.slack.com" "/archives/C123/p1609459200123456" []).getParam
            "thread_ts" with
        | some t => if t ≠ "" then t else info.messageTs
        | none => info.messageTs) :=
  C1_archive_message_form ⟨"acme.slack.com", "/archives/C123/p1609459200123456", []⟩
    "C123" "1609459200123456" (by decide) (by decide) (by decide) (by decide)
    (by decide)

/-- C2: the resolver is total: on any parse outcome it returns a value or
the null sentinel, and when generic URL parsing fails (`new URL` threw),
`isSlackUrl` returns false and `parseSlackUrl` returns null. -/
theorem C2_resolver_total (r : Option URL) :
    (parseSlackUrlFromParse r = none ∨ ∃ info, parseSlackUrlFromParse r = some info) ∧
    (isSlackUrlFromParse r = false ∨ isSlackUrlFromParse r = true) ∧
    (r = none → isSlackUrlFromParse r = false ∧ parseSlackUrlFromParse r = none) := by
  refine ⟨?_, ?_, ?_⟩
  · cases hv : parseSlackUrlFromParse r with
    | none => exact Or.inl rfl
    | some i => exact Or.inr ⟨i, rfl⟩
  · cases hv : isSlackUrlFromParse r with
    | false => exact Or.inl rfl
    | true => exact Or.inr rfl
  · rintro rfl
    exact ⟨rfl, rfl⟩

/-- C2 witness: the failed-parse case evaluated concretely. -/
theorem C2_resolver_total_witness :
    isSlackUrlFromParse none = false ∧ parseSlackUrlFromParse none = none :=
  (C2_resolver_total none).2.2 rfl

/-- C4: for every parsed URL, `isSlackUrl` is true exactly when the host is
the bare domain `slack.com` or some subdomain of it (any string followed by
`.slack.com`). -/
theorem C4_domain_gate (u : URL) :
    isSlackUrl u = true ↔
      (u.hostname = "slack.com" ∨ ∃ pre : String, u.hostname = pre ++ ".slack.com") := by
  unfold isSlackUrl
  simp only [Bool.or_eq_true, List.isSuffixOf_iff_suffix, decide_eq_true_eq]
  constructor
  · rintro (⟨t, ht⟩ | hs)
    · right
      refine ⟨String.mk t, ?_⟩
      have hr : String.mk t ++ ".slack.com" = String.mk (t ++ ".slack.com".data) := rfl
      rw [hr, ht, mk_data]
    · exact Or.inl hs
  · rintro (hs | ⟨pre, hp⟩)
    · exact Or.inr hs
    · exact Or.inl ⟨pre.data, by rw [hp]; rfl⟩

/-- C5: for every URL whose path has the client-thread form
`/client/<TEAM>/<ID>/thread/<ANY>-<seconds.micros>`, `parseSlackUrl` takes
`channelId` from the second path segment (not from the discarded owner
prefix), and both `messageTs` and `threadTs` are the trailing timestamp,
with no conversion applied. -/
theorem C5_client_thread_form (u : URL) (team cid owner d1 d2 : String)
    (hpath : u.pathname = "/client/" ++ team ++ "/" ++ cid ++ "/thread/" ++
      owner ++ "-" ++ d1 ++ "." ++ d2)
    (hteam : team ≠ "") (hteam2 : ∀ c ∈ team.data, isAlnumChar c = true)
    (hcid : cid ≠ "") (hcid2 : ∀ c ∈ cid.data, isAlnumChar c = true)
    (howner : owner ≠ "") (howner2 : ∀ c ∈ owner.data, isAlnumChar c = true)
    (hd1 : d1 ≠ "") (hd12 : ∀ c ∈ d1.data, isDigitChar c = true)
    (hd2 : d2 ≠ "") (hd22 : ∀ c ∈ d2.data, isDigitChar c = true) :
    ∃ info, parseSlackUrl u = some info ∧
      info.channelId = cid ∧
      info.messageTs = d1 ++ "." ++ d2 ∧
      info.threadTs = some (d1 ++ "." ++ d2) := by
  have hdata : u.pathname.data = "/client/".data ++ (team.data ++ '/' ::
      (cid.data ++ '/' :: 't' :: 'h' :: 'r' :: 'e' :: 'a' :: 'd' :: '/' ::
        (owner.data ++ '-' :: (d1.data ++ '.' :: d2.data)))) := by
    rw [hpath]
    simp [data_append, List.append_assoc, show "/".data = ['/'] from rfl,
      show "/thread/".data = ['/', 't', 'h', 'r', 'e', 'a', 'd', '/'] from rfl,
      show "-".data = ['-'] from rfl, show ".".data = ['.'] from rfl]
  have harch : matchArchiveMsg u.pathname.data = none := by
    rw [hdata]
    exact matchArchiveMsg_client _
  have hm : matchClientThread u.pathname.data
      = some (cid.data, d1.data ++ '.' :: d2.data) := by
    rw [hdata]
    exact matchClientThread_pos team.data cid.data owner.data d1.data d2.data
      (data_ne_nil hteam) hteam2 (data_ne_nil hcid) hcid2
      (data_ne_nil howner) howner2 (data_ne_nil hd1) hd12
      (data_ne_nil hd2) hd22
  have hts : String.mk (d1.data ++ '.' :: d2.data) = d1 ++ "." ++ d2 :=
    mk_eq_of_data (by
      simp [data_append, List.append_assoc, show ".".data = ['.'] from rfl])
  refine ⟨_, parseSlackUrl_client u cid.data (d1.data ++ '.' :: d2.data) harch hm,
    ?_, ?_, ?_⟩
  · exact mk_data cid
  · exact hts
  · exact congrArg some hts

/-- C5 witness: the client-thread example evaluated at a concrete URL. -/
theorem C5_client_thread_form_witness :
    ∃ info, parseSlackUrl
        ⟨"app.slack.com", "/client/T1/C123/thread/C123-1609459200.123456", []⟩
        = some info ∧
      info.channelId = "C123" ∧
      info.messageTs = "1609459200" ++ "." ++ "123456" ∧
      info.threadTs = some ("1609459200" ++ "." ++ "123456") :=
  C5_client_thread_form
    ⟨"app.slack.com", "/client/T1/C123/thread/C123-1609459200.123456", []⟩
    "T1" "C123" "C123" "1609459200" "123456" (by decide) (by decide) (by decide)
    (by decide) (by decide) (by decide) (by decide) (by decide) (by decide)
    (by decide) (by decide)

/-- C6: a bare-channel path `/archives/<ID>` with a non-empty alphanumeric ID
resolves to `channelId = <ID>`, empty `messageTs` and absent `threadTs`, while
the path `/archives/` with no ID at all is unresolvable. -/
theorem C6_bare_channel_form (u : URL) (id : String)
    (hpath : u.pathname = "/archives/" ++ id)
    (hid : id ≠ "") (hid2 : ∀ c ∈ id.data, isAlnumChar c = true) :
    (∃ info, parseSlackUrl u = some info ∧
      info.channelId = id ∧ info.messageTs = "" ∧ info.threadTs = none) ∧
    parseSlackUrl ⟨"acme.slack.com", "/archives/", []⟩ = none := by
  have hdata : u.pathname.data = "/archives/".data ++ id.data := by
    rw [hpath]
    simp [data_append]
  have harch : matchArchiveMsg u.pathname.data = none := by
    rw [hdata]
    exact (matchArchiveMsg_bare id.data hid2).1
  have hclient : matchClientThread u.pathname.data = none := by
    rw [hdata]
    exact matchClientThread_arch _
  have hbare : matchBareChannel u.pathname.data = some id.data := by
    rw [hdata]
    exact (matchBareChannel_pos id.data (data_ne_nil hid) hid2).1
  refine ⟨⟨_, parseSlackUrl_bare u id.data harch hclient hbare,
    mk_data id, rfl, rfl⟩, by decide⟩

/-- C6 witness: the bare-channel example evaluated at a concrete URL. -/
theorem C6_bare_channel_form_witness :
    (∃ info, parseSlackUrl ⟨"acme.slack.com", "/archives/C123", []⟩ = some info ∧
      info.channelId = "C123" ∧ info.messageTs = "" ∧ info.threadTs = none) ∧
    parseSlackUrl ⟨"acme.slack.com", "/archives/", []⟩ = none :=
  C6_bare_channel_form ⟨"acme.slack.com", "/archives/C123", []⟩ "C123"
    (by decide) (by decide) (by decide)

/-- C8: path-shape matching is case-insensitive on the literal keywords
(`archives`, `client`, `thread`, and the `p`/`P` timestamp prefix) and on the
channel/team ID character set: each of the three shapes resolves identically
for every case variant of its keywords (the conclusion does not depend on
the variant, so `/ARCHIVES/C123/p...`, `/archives/C123/P...` and the
lowercase form are equivalent), while the returned `channelId` is the ID
substring exactly as it appeared in the URL. -/
theorem C8_keyword_case :
    (∀ (u : URL) (arch : String) (pc : Char) (id ds : String),
      arch.data.map Char.toLower = "archives".data.map Char.toLower →
      pc.toLower = 'p' →
      id ≠ "" → (∀ c ∈ id.data, isAlnumChar c = true) →
      ds ≠ "" → (∀ c ∈ ds.data, isDigitChar c = true) →
      u.pathname = "/" ++ arch ++ "/" ++ id ++ "/" ++ String.mk [pc] ++ ds →
      ∃ info, parseSlackUrl u = some info ∧
        info.channelId = id ∧
        info.messageTs = (if ds.data.length = 16
          then String.mk (ds.data.take 10 ++ '.' :: ds.data.drop 10) else ds) ∧
        info.threadTs = some (match u.getParam "thread_ts" with
          | some t => if t ≠ "" then t else info.messageTs
          | none => info.messageTs)) ∧
    (∀ (u : URL) (cl th team cid owner d1 d2 : String),
      cl.data.map Char.toLower = "client".data.map Char.toLower →
      th.data.map Char.toLower = "thread".data.map Char.toLower →
      team ≠ "" → (∀ c ∈ team.data, isAlnumChar c = true) →
      cid ≠ "" → (∀ c ∈ cid.data, isAlnumChar c = true) →
      owner ≠ "" → (∀ c ∈ owner.data, isAlnumChar c = true) →
      d1 ≠ "" → (∀ c ∈ d1.data, isDigitChar c = true) →
      d2 ≠ "" → (∀ c ∈ d2.data, isDigitChar c = true) →
      u.pathname = "/" ++ cl ++ "/" ++ team ++ "/" ++ cid ++ "/" ++ th ++ "/" ++
        owner ++ "-" ++ d1 ++ "." ++ d2 →
      ∃ info, parseSlackUrl u = some info ∧
        info.channelId = cid ∧
        info.messageTs = d1 ++ "." ++ d2 ∧
        info.threadTs = some (d1 ++ "." ++ d2)) ∧
    (∀ (u : URL) (arch id : String),
      arch.data.map Char.toLower = "archives".data.map Char.toLower →
      id ≠ "" → (∀ c ∈ id.data, isAlnumChar c = true) →
      u.pathname = "/" ++ arch ++ "/" ++ id →
      ∃ info, parseSlackUrl u = some info ∧
        info.channelId = id ∧ info.messageTs = "" ∧ info.threadTs = none) := by
  refine ⟨?_, ?_, ?_⟩
  · intro u arch pc id ds harch hpc hid hid2 hds hds2 hpath
    have hdata : u.pathname.data =
        ('/' :: arch.data ++ ['/']) ++ (id.data ++ '/' :: pc :: ds.data) := by
      rw [hpath]
      simp [data_append, List.append_assoc, show "/".data = ['/'] from rfl]
    have hkw : ('/' :: arch.data ++ ['/']).map Char.toLower =
        "/archives/".data.map Char.toLower := by
      rw [show "/archives/".data = '/' :: "archives".data ++ ['/'] from rfl]
      simp [List.map_append, harch]
    have hm : matchArchiveMsg u.pathname.data = some (id.data, ds.data) := by
      rw [hdata]
      exact matchArchiveMsg_pos_ci ('/' :: arch.data ++ ['/']) pc id.data ds.data
        hkw hpc (data_ne_nil hid) hid2 (data_ne_nil hds) hds2
    exact archive_result u id ds hm hds hds2
  · intro u cl th team cid owner d1 d2 hcl hth hteam hteam2 hcid hcid2
      howner howner2 hd1 hd12 hd2 hd22 hpath
    have hdata : u.pathname.data = '/' :: (cl.data ++ '/' :: (team.data ++ '/' ::
        (cid.data ++ '/' :: (th.data ++ '/' :: (owner.data ++ '-' ::
          (d1.data ++ '.' :: d2.data)))))) := by
      rw [hpath]
      simp [data_append, List.append_assoc, show "/".data = ['/'] from rfl,
        show "-".data = ['-'] from rfl, show ".".data = ['.'] from rfl]
    have hcl' := hcl
    rw [show "client".data = 'c' :: "lient".data from rfl] at hcl'
    obtain ⟨c0, t0, hcl0, hc0, _⟩ := map_toLower_cons hcl'
    have hc0' : c0.toLower = 'c' := hc0.trans (by decide)
    have harch : matchArchiveMsg u.pathname.data = none := by
      rw [hdata, hcl0]
      exact matchArchiveMsg_head_ne c0 _ (by rw [hc0']; decide)
    have hm : matchClientThread u.pathname.data
        = some (cid.data, d1.data ++ '.' :: d2.data) := by
      rw [hdata]
      exact matchClientThread_pos_ci cl.data th.data team.data cid.data owner.data
        d1.data d2.data hcl hth (data_ne_nil hteam) hteam2 (data_ne_nil hcid) hcid2
        (data_ne_nil howner) howner2 (data_ne_nil hd1) hd12 (data_ne_nil hd2) hd22
    have hts : String.mk (d1.data ++ '.' :: d2.data) = d1 ++ "." ++ d2 :=
      mk_eq_of_data (by
        simp [data_append, List.append_assoc, show ".".data = ['.'] from rfl])
    exact ⟨_, parseSlackUrl_client u cid.data (d1.data ++ '.' :: d2.data) harch hm,
      mk_data cid, hts, congrArg some hts⟩
  · intro u arch id harch hid hid2 hpath
    have hdata : u.pathname.data = '/' :: (arch.data ++ '/' :: id.data) := by
      rw [hpath]
      simp [data_append, List.append_assoc, show "/".data = ['/'] from rfl]
    have hkw : "/archives/".data.map Char.toLower =
        ('/' :: arch.data ++ ['/']).map Char.toLower := by
      rw [show "/archives/".data = '/' :: "archives".data ++ ['/'] from rfl]
      simp [List.map_append, harch]
    have harch' := harch
    rw [show "archives".data = 'a' :: "rchives".data from rfl] at harch'
    obtain ⟨a0, t0, harch0, ha0, _⟩ := map_toLower_cons harch'
    have ha0' : a0.toLower = 'a' := ha0.trans (by decide)
    have hfail1 : matchArchiveMsg u.pathname.data = none := by
      rw [hdata]
      exact matchArchiveMsg_bare_ci arch.data id.data hkw hid2
    have hfail2 : matchClientThread u.pathname.data = none := by
      rw [hdata, harch0]
      exact matchClientThread_head_ne a0 _ (by rw [ha0']; decide)
    have hbare : matchBareChannel u.pathname.data = some id.data := by
      rw [hdata]
      exact matchBareChannel_pos_ci arch.data id.data hkw (data_ne_nil hid) hid2
    exact ⟨_, parseSlackUrl_bare u id.data hfail1 hfail2 hbare,
      mk_data id, rfl, rfl⟩

/-- C8 witness: all three shapes with uppercase or mixed-case keywords and a
mixed-case archive ID, evaluated at concrete URLs. -/
theorem C8_keyword_case_witness :
    (∃ info, parseSlackUrl
        ⟨"acme.slack.com", "/ARCHIVES/c12De/P1609459200123456", []⟩ = some info ∧
      info.channelId = "c12De" ∧
      info.messageTs = (if ("1609459200123456" : String).data.length = 16
        then String.mk (("1609459200123456" : String).data.take 10 ++
          '.' :: ("1609459200123456" : String).data.drop 10)
        else "1609459200123456") ∧
      info.threadTs = some (match
          (URL.mk "acme.slack.com" "/ARCHIVES/c12De/P1609459200123456" []).getParam
            "thread_ts" with
        | some t => if t ≠ "" then t else info.messageTs
        | none => info.messageTs)) ∧
    (∃ info, parseSlackUrl
        ⟨"app.slack.com", "/CLIENT/T1/C123/THREAD/C123-1609459200.123456", []⟩
        = some info ∧
      info.channelId = "C123" ∧
      info.messageTs = "1609459200" ++ "." ++ "123456" ∧
      info.threadTs = some ("1609459200" ++ "." ++ "123456")) ∧
    (∃ info, parseSlackUrl ⟨"acme.slack.com", "/Archives/C123", []⟩ = some info ∧
      info.channelId = "C123" ∧ info.messageTs = "" ∧ info.threadTs = none) :=
  ⟨C8_keyword_case.1 ⟨"acme.slack.com", "/ARCHIVES/c12De/P1609459200123456", []⟩
      "ARCHIVES" 'P' "c12De" "1609459200123456" (by decide) (by decide)
      (by decide) (by decide) (by decide) (by decide) (by decide),
   C8_keyword_case.2.1
      ⟨"app.slack.com", "/CLIENT/T1/C123/THREAD/C123-1609459200.123456", []⟩
      "CLIENT" "THREAD" "T1" "C123" "C123" "1609459200" "123456" (by decide)
      (by decide) (by decide) (by decide) (by decide) (by decide) (by decide)
      (by decide) (by decide) (by decide) (by decide) (by decide) (by decide),
   C8_keyword_case.2.2 ⟨"acme.slack.com", "/Archives/C123", []⟩ "Archives" "C123"
      (by decide) (by decide) (by decide) (by decide)⟩

/-- C10: a path `/archives/<ID>/` with a single trailing slash resolves as the
bare-channel form (channelId = ID, empty messageTs, absent threadTs) rather
than being unresolvable. -/
theorem C10_trailing_slash_bare (u : URL) (id : String)
    (hpath : u.pathname = "/archives/" ++ id ++ "/")
    (hid : id ≠ "") (hid2 : ∀ c ∈ id.data, isAlnumChar c = true) :
    ∃ info, parseSlackUrl u = some info ∧
      info.channelId = id ∧ info.messageTs = "" ∧ info.threadTs = none := by
  have hdata : u.pathname.data = "/archives/".data ++ (id.data ++ ['/']) := by
    rw [hpath]
    simp [data_append, List.append_assoc, show "/".data = ['/'] from rfl]
  have harch : matchArchiveMsg u.pathname.data = none := by
    rw [hdata]
    exact (matchArchiveMsg_bare id.data hid2).2
  have hclient : matchClientThread u.pathname.data = none := by
    rw [hdata]
    exact matchClientThread_arch _
  have hbare : matchBareChannel u.pathname.data = some id.data := by
    rw [hdata]
    exact (matchBareChannel_pos id.data (data_ne_nil hid) hid2).2
  exact ⟨_, parseSlackUrl_bare u id.data harch hclient hbare,
    mk_data id, rfl, rfl⟩

/-- C10 witness: the trailing-slash example evaluated at a concrete URL. -/
theorem C10_trailing_slash_bare_witness :
    ∃ info, parseSlackUrl ⟨"acme.slack.com", "/archives/C123/", []⟩ = some info ∧
      info.channelId = "C123" ∧ info.messageTs = "" ∧ info.threadTs = none :=
  C10_trailing_slash_bare ⟨"acme.slack.com", "/archives/C123/", []⟩ "C123"
    (by decide) (by decide) (by decide)

/-- C7: on every successful parse, `threadTs` is absent exactly when the
result is a bare channel reference, i.e. exactly when `messageTs` is the
empty string. -/
theorem C7_threadTs_iff_bare (u : URL) (info : SlackUrlInfo)
    (h : parseSlackUrl u = some info) :
    info.threadTs = none ↔ info.messageTs = "" := by
  rcases (parseSlackUrl_inv u info h).2 with
    ⟨cid, ds, hm, hc, hmsg, hth⟩ | ⟨cid, ts, hm, hc, hmsg, hth⟩ |
    ⟨cid, hm, hc, hmsg, hth⟩
  · have hds := matchArchiveMsg_inv _ _ _ hm
    constructor
    · intro hn
      rw [hth] at hn
      exact absurd hn (by simp)
    · intro he
      rw [hmsg] at he
      exact absurd he (parseSlackTimestamp_digits_ne_empty ds hds.1 hds.2)
  · have hdot := matchClientThread_inv _ _ _ hm
    constructor
    · intro hn
      rw [hth] at hn
      exact absurd hn (by simp)
    · intro he
      rw [hmsg, mk_eq_empty] at he
      rw [he] at hdot
      simp at hdot
  · rw [hth, hmsg]
    simp

/-- C7 witness: the archive example has both sides of the equivalence
false, the bare-channel example has both sides true. -/
theorem C7_threadTs_iff_bare_witness :
    ((SlackUrlInfo.mk (some "acme") "C123" "1609459200.123456"
        (some "1609459200.123456")).threadTs = none ↔
      (SlackUrlInfo.mk (some "acme") "C123" "1609459200.123456"
        (some "1609459200.123456")).messageTs = "") ∧
    ((SlackUrlInfo.mk (some "acme") "C123" "" none).threadTs = none ↔
      (SlackUrlInfo.mk (some "acme") "C123" "" none).messageTs = "") :=
  ⟨C7_threadTs_iff_bare
      ⟨"acme.slack.com", "/archives/C123/p1609459200123456", []⟩
      (SlackUrlInfo.mk (some "acme") "C123" "1609459200.123456"
        (some "1609459200.123456")) (by decide),
   C7_threadTs_iff_bare ⟨"acme.slack.com", "/archives/C123", []⟩
      (SlackUrlInfo.mk (some "acme") "C123" "" none) (by decide)⟩

/-- C9: on every successful parse, whichever shape matched, the workspace is
the first dot-separated label of the host, absent exactly when that label is
the literal `app`. -/
theorem C9_workspace_extraction (u : URL) (info : SlackUrlInfo)
    (h : parseSlackUrl u = some info) :
    info.workspace = (if (splitOnDot u.hostname.data).headD [] = "app".data
      then none
      else some (String.mk ((splitOnDot u.hostname.data).headD []))) := by
  have hw := (parseSlackUrl_inv u info h).1
  rw [hw]
  by_cases happ : (splitOnDot u.hostname.data).headD [] = "app".data
  · simp [happ]
  · simp [happ]

/-- C9 witness: a tenant host yields its first label, the `app` host yields
an absent workspace. -/
theorem C9_workspace_extraction_witness :
    ((SlackUrlInfo.mk (some "acme") "C123" "" none).workspace =
      (if (splitOnDot ("acme.slack.com" : String).data).headD [] = "app".data
       then none
       else some (String.mk ((splitOnDot ("acme.slack.com" : String).data).headD [])))) ∧
    ((SlackUrlInfo.mk none "C123" "1609459200.123456"
        (some "1609459200.123456")).workspace =
      (if (splitOnDot ("app.slack.com" : String).data).headD [] = "app".data
       then none
       else some (String.mk ((splitOnDot ("app.slack.com" : String).data).headD [])))) :=
  ⟨C9_workspace_extraction ⟨"acme.slack.com", "/archives/C123", []⟩
      (SlackUrlInfo.mk (some "acme") "C123" "" none) (by decide),
   C9_workspace_extraction
      ⟨"app.slack.com", "/client/T1/C123/thread/C123-1609459200.123456", []⟩
      (SlackUrlInfo.mk none "C123" "1609459200.123456"
        (some "1609459200.123456")) (by decide)⟩

/-- C3 counterexample: `/archives/C123/p123` parses successfully with the
non-empty `messageTs` `"123"`, which does not match the canonical
10-digits, dot, 6-digits format — the digit run is passed through
unchanged because its length is not 16. -/
theorem C3_counterexample :
    parseSlackUrl ⟨"acme.slack.com", "/archives/C123/p123", []⟩ =
      some ⟨some "acme", "C123", "123", some "123"⟩ ∧
    ("123" : String) ≠ "" ∧ isCanonicalTs "123" = false := by
  decide

/-- C3 amended: on every successful parse with non-empty `messageTs`, the
value is never left in compact 16-digit form (it is either the normalized
split of a 16-digit run, a dotted client timestamp, or a defensively
passed-through digit run of some other length). -/
theorem C3_never_compact (u : URL) (info : SlackUrlInfo)
    (h : parseSlackUrl u = some info) (hne : info.messageTs ≠ "") :
    ¬ (info.messageTs.data.length = 16 ∧
       ∀ c ∈ info.messageTs.data, isDigitChar c = true) := by
  rcases (parseSlackUrl_inv u info h).2 with
    ⟨cid, ds, hm, hc, hmsg, hth⟩ | ⟨cid, ts, hm, hc, hmsg, hth⟩ |
    ⟨cid, hm, hc, hmsg, hth⟩
  · have hds := matchArchiveMsg_inv _ _ _ hm
    rw [hmsg]
    exact parseSlackTimestamp_digits_not_compact ds hds.1 hds.2
  · have hdot := matchClientThread_inv _ _ _ hm
    rw [hmsg]
    rintro ⟨hlen, hall⟩
    have hd := hall '.' hdot
    simp [isDigitChar] at hd
  · exact absurd hmsg hne

/-- C3 amended witness: evaluated on the short-run example. -/
theorem C3_never_compact_witness :
    ¬ ((("123" : String)).data.length = 16 ∧
       ∀ c ∈ (("123" : String)).data, isDigitChar c = true) :=
  C3_never_compact ⟨"acme.slack.com", "/archives/C123/p123", []⟩
    ⟨some "acme", "C123", "123", some "123"⟩ (by decide) (by decide)

end SlackMcp
